import Mathlib

/-!
Shallow embedding of the `tokens` model-comparison script
(`src/tokens/main.py`, `src/tokens/tools/model_call_tool.py`,
`src/tokens/test_models.py`).

External effects (the YAML config load, the network call performed by the
crew, and wall-clock timing) are modelled as explicit inputs: the config
load outcome is an `Except`, each model's invocation outcome is an
`Outcome` value, and each model's elapsed wall-clock time is a rational
parameter.  Everything the Python code computes from those inputs is
translated directly.
-/

namespace Tokens

/-- Token usage object attached to a crew output (`crew_output.token_usage`). -/
structure UsageMetrics where
  prompt_tokens : Int
  completion_tokens : Int
  total_tokens : Int
deriving DecidableEq, Repr

/-- Net outcome of the guarded per-model body after environment resolution:
either the crew call returns a `CrewOutput` carrying raw text and an optional
usage object, or some exception with message `msg` is raised. -/
inductive Outcome where
  | success (raw : String) (token_usage : Option UsageMetrics)
  | failure (msg : String)
deriving DecidableEq, Repr

/-- Value of a token field in a result dict: a Python integer, or the
string sentinel `N/A` used on failure rows. -/
inductive TokenVal where
  | int (n : Int)
  | na
deriving DecidableEq, Repr

/-- One entry of the `results` list built by `main`
(the per-model report dict). -/
structure ResultRec where
  model : String
  model_id : String
  execution_time_sec : ℚ
  response : Option String
  success : Bool
  error : Option String
  token_in : TokenVal
  token_out : TokenVal
  total_tokens : TokenVal
deriving DecidableEq, Repr

/-- One entry of the `models` list from the config, with all required keys
present (`name`, `model`, `base_url`, `api_key`). -/
structure ModelCfg where
  name : String
  model : String
  base_url : String
  api_key : String
deriving DecidableEq, Repr

instance {α β : Type} [DecidableEq α] [DecidableEq β] :
    DecidableEq (Except α β) := fun a b =>
  match a, b with
  | .error x, .error y =>
    if h : x = y then isTrue (by rw [h]) else isFalse (by simp [h])
  | .error _, .ok _ => isFalse (by simp)
  | .ok _, .error _ => isFalse (by simp)
  | .ok x, .ok y =>
    if h : x = y then isTrue (by rw [h]) else isFalse (by simp [h])

/-- Translation of `get_env_value` from `main.py`.  The process environment
is passed in as `env : String → Option String` (`os.getenv`); Python's
`if not env_value` treats both `None` and the empty string as missing.
Python's `str.startswith` / `str.endswith` / `value[2:-1]` are expressed on
the underlying character sequence (`String.data`). -/
def get_env_value (env : String → Option String) (value : String) :
    Except String String :=
  if "$\x7b".data.isPrefixOf value.data && "\x7d".data.isSuffixOf value.data then
    let env_var : String := ⟨(value.data.drop 2).dropLast⟩
    match env env_var with
    | none => .error ("Environment variable " ++ env_var ++ " is not set")
    | some v =>
      if v = "" then .error ("Environment variable " ++ env_var ++ " is not set")
      else .ok v
  else
    .ok value

/-- The name sliced out of a placeholder (`value[2:-1]`). -/
def placeholderName (s : String) : String := ⟨(s.data.drop 2).dropLast⟩

/-- The dict appended in the `except` branch of the per-model loop. -/
def failRec (model_name model_id : String) (elapsed : ℚ) (msg : String) :
    ResultRec :=
  { model := model_name, model_id := model_id, execution_time_sec := elapsed,
    response := none, success := false, error := some msg,
    token_in := .na, token_out := .na, total_tokens := .na }

/-- The dict appended in the success path of the per-model loop: token
counters start at `0` and are overwritten only when `token_stats` is truthy. -/
def successRec (model_name model_id : String) (elapsed : ℚ) (raw : String)
    (token_stats : Option UsageMetrics) : ResultRec :=
  let token_in : Int :=
    match token_stats with | some u => u.prompt_tokens | none => 0
  let token_out : Int :=
    match token_stats with | some u => u.completion_tokens | none => 0
  let total_tokens : Int :=
    match token_stats with | some u => u.total_tokens | none => 0
  { model := model_name, model_id := model_id, execution_time_sec := elapsed,
    response := some raw, success := true, error := none,
    token_in := .int token_in, token_out := .int token_out,
    total_tokens := .int total_tokens }

/-- One iteration of the per-model loop in `main`, for a descriptor with all
keys present: the `try` block resolves `base_url` and `api_key`, then runs
the crew (whose net effect is `outcome`); the `except` branch turns any of
those exceptions into a failure record. -/
def processModel (env : String → Option String) (cfg : ModelCfg)
    (elapsed : ℚ) (outcome : Outcome) : ResultRec :=
  match get_env_value env cfg.base_url with
  | .error e => failRec cfg.name cfg.model elapsed e
  | .ok _ =>
    match get_env_value env cfg.api_key with
    | .error e => failRec cfg.name cfg.model elapsed e
    | .ok _ =>
      match outcome with
      | .failure msg => failRec cfg.name cfg.model elapsed msg
      | .success raw usage => successRec cfg.name cfg.model elapsed raw usage

/-- The whole per-model loop of `main` over well-formed descriptors: each
model is paired with its elapsed wall-clock time and invocation outcome, and
contributes exactly one appended record. -/
def runModels (env : String → Option String)
    (inputs : List (ModelCfg × ℚ × Outcome)) : List ResultRec :=
  inputs.map (fun x => processModel env x.1 x.2.1 x.2.2)

/-- The exception (if any) raised inside one iteration's `try` block, with
its Python message: env resolution of `base_url`, then of `api_key`, then
the crew call itself. `none` means the iteration succeeds. -/
def attemptError (env : String → Option String) (cfg : ModelCfg)
    (outcome : Outcome) : Option String :=
  match get_env_value env cfg.base_url with
  | .error e => some e
  | .ok _ =>
    match get_env_value env cfg.api_key with
    | .error e => some e
    | .ok _ =>
      match outcome with
      | .failure msg => some msg
      | .success _ _ => none

/-- A raw config dict as loaded from YAML, where any of the four keys may be
missing; `model_config['k']` on a missing key raises `KeyError('k')`. -/
structure RawCfg where
  name : Option String
  model : Option String
  base_url : Option String
  api_key : Option String
deriving DecidableEq, Repr

/-- The guarded (`try`) part of one loop iteration over a raw dict: the
`base_url` / `api_key` key lookups happen inside the `try`, so their
`KeyError` (Python renders it as the quoted key name) is caught and becomes
that model's failure record. -/
def processRawBody (env : String → Option String) (model_name model_id : String)
    (cfg : RawCfg) (elapsed : ℚ) (outcome : Outcome) : ResultRec :=
  match cfg.base_url with
  | none => failRec model_name model_id elapsed "\x27base_url\x27"
  | some bu =>
    match get_env_value env bu with
    | .error e => failRec model_name model_id elapsed e
    | .ok _ =>
      match cfg.api_key with
      | none => failRec model_name model_id elapsed "\x27api_key\x27"
      | some ak =>
        match get_env_value env ak with
        | .error e => failRec model_name model_id elapsed e
        | .ok _ =>
          match outcome with
          | .failure msg => failRec model_name model_id elapsed msg
          | .success raw usage => successRec model_name model_id elapsed raw usage

/-- The per-model loop over raw dicts.  `model_config['name']` and
`model_config['model']` are read before the `try` block begins, so a missing
`name` or `model` key raises out of the loop: the whole run aborts with that
`KeyError` and the accumulated results are discarded (no report is printed). -/
def runModelsRaw (env : String → Option String) :
    List (RawCfg × ℚ × Outcome) → Except String (List ResultRec)
  | [] => .ok []
  | x :: rest =>
    match x.1.name with
    | none => .error "\x27name\x27"
    | some n =>
      match x.1.model with
      | none => .error "\x27model\x27"
      | some m =>
        (runModelsRaw env rest).map
          (fun rs => processRawBody env n m x.1 x.2.1 x.2.2 :: rs)

/-- A well-formed descriptor viewed as a raw dict with every key present. -/
def ModelCfg.toRaw (c : ModelCfg) : RawCfg :=
  ⟨some c.name, some c.model, some c.base_url, some c.api_key⟩

/-- Sort key of the report printer: `(not x['success'], x['execution_time_sec'])`
compared lexicographically (Python tuple order, `False < True`). -/
def resKey (r : ResultRec) : Bool × ℚ := (!r.success, r.execution_time_sec)

/-- The (non-strict) lexicographic order on sort keys used by `results.sort`. -/
def keyLe (a b : ResultRec) : Prop :=
  ((!a.success) = false ∧ (!b.success) = true) ∨
    ((!a.success) = (!b.success) ∧ a.execution_time_sec ≤ b.execution_time_sec)

instance : DecidableRel keyLe := fun a b => by unfold keyLe; infer_instance

instance : IsTotal ResultRec keyLe where
  total a b := by
    unfold keyLe
    cases ha : !a.success <;> cases hb : !b.success
    · rcases le_total a.execution_time_sec b.execution_time_sec with h | h
      · exact Or.inl (Or.inr ⟨rfl, h⟩)
      · exact Or.inr (Or.inr ⟨rfl, h⟩)
    · exact Or.inl (Or.inl ⟨rfl, rfl⟩)
    · exact Or.inr (Or.inl ⟨rfl, rfl⟩)
    · rcases le_total a.execution_time_sec b.execution_time_sec with h | h
      · exact Or.inl (Or.inr ⟨rfl, h⟩)
      · exact Or.inr (Or.inr ⟨rfl, h⟩)

instance : IsTrans ResultRec keyLe where
  trans a b c hab hbc := by
    unfold keyLe at *
    rcases hab with ⟨ha, hb⟩ | ⟨hab, htab⟩
    · rcases hbc with ⟨hb', hc⟩ | ⟨hbc, htbc⟩
      · rw [hb] at hb'; exact absurd hb' (by simp)
      · exact Or.inl ⟨ha, hbc ▸ hb⟩
    · rcases hbc with ⟨hb', hc⟩ | ⟨hbc, htbc⟩
      · exact Or.inl ⟨hab ▸ hb', hc⟩
      · exact Or.inr ⟨hab.trans hbc, htab.trans htbc⟩

/-- The in-place `results.sort(key=lambda x: (not x['success'],
x['execution_time_sec']))`: Python's sort is stable, modelled by stable
insertion sort under `keyLe`. -/
def sortResults (results : List ResultRec) : List ResultRec :=
  results.insertionSort keyLe

/-- The summary block printed after the table: counts, fastest/slowest
successful entry of the (sorted) results, and mean elapsed time over
successes (`successful[0]`, `successful[-1]`, `sum/len`). -/
structure Summary where
  total : Nat
  successful_count : Nat
  failed_count : Nat
  fastest : Option ResultRec
  slowest : Option ResultRec
  avg_time : Option ℚ
deriving DecidableEq, Repr

/-- Statistics computed by `main` over the (already sorted) results list. -/
def summarize (results : List ResultRec) : Summary :=
  let successful := results.filter (fun r => r.success)
  let failed := results.filter (fun r => !r.success)
  { total := results.length
    successful_count := successful.length
    failed_count := failed.length
    fastest := successful.head?
    slowest := successful.getLast?
    avg_time :=
      if successful.length = 0 then none
      else some ((successful.map (fun r => r.execution_time_sec)).sum /
        successful.length) }

/-- Observable outcome of one `main` run: which models were invoked, the
results collection, and whether the summary report was printed. -/
structure RunOutput where
  invoked : List String
  results : List ResultRec
  report_printed : Bool
deriving DecidableEq, Repr

/-- Top-level control flow of `main`: if `load_models_config` raises, the
error is printed and the function returns at once — nothing is invoked, no
result record is created, no report is printed.  Otherwise every configured
model is invoked and the report is printed. -/
def mainRun (env : String → Option String)
    (cfg : Except String (List (ModelCfg × ℚ × Outcome))) : RunOutput :=
  match cfg with
  | .error _ => { invoked := [], results := [], report_printed := false }
  | .ok inputs =>
    { invoked := inputs.map (fun x => x.1.name)
      results := runModels env inputs
      report_printed := true }

/-- One message of an OpenAI-compatible chat request. -/
structure ChatMessage where
  role : String
  content : String
deriving DecidableEq, Repr

/-- Body of one chat-completion request (`temperature := none` means the
request body carries no temperature key). -/
structure ChatRequest where
  model : String
  messages : List ChatMessage
  temperature : Option ℚ
deriving DecidableEq, Repr

/-- One choice of a chat-completion response body. -/
structure ChatChoice where
  message : ChatMessage
deriving DecidableEq, Repr

/-- A chat-completion response body (`choices[0].message.content`). -/
structure ChatResponse where
  choices : List ChatChoice
deriving DecidableEq, Repr

/-- Python's `str.strip()`: drop leading and trailing whitespace. -/
def pyStrip (s : String) : String :=
  ⟨((s.data.dropWhile Char.isWhitespace).reverse.dropWhile
    Char.isWhitespace).reverse⟩

/-- The request body built by `OpenAICompatibleTool._run` in
`tools/model_call_tool.py`: fixed system message, one user message,
`temperature=0.7`. -/
def toolRequest (model_name prompt : String) : ChatRequest :=
  { model := model_name
    messages := [{ role := "system", content := "You are a helpful assistant." },
                 { role := "user", content := prompt }]
    temperature := some (7 / 10) }

/-- Result extraction in `OpenAICompatibleTool._run`:
`response.choices[0].message.content`, returned as-is (`none` models the
`IndexError` on an empty `choices`). -/
def toolExtract (response : ChatResponse) : Option String :=
  response.choices.head?.map (fun c => c.message.content)

/-- The request body built by `call_model` in `test_models.py`: only the
user message, and no temperature key in the body. -/
def callModelRequest (model_name prompt : String) : ChatRequest :=
  { model := model_name
    messages := [{ role := "user", content := prompt }]
    temperature := none }

/-- Result extraction in `call_model`:
`response_json['choices'][0]['message']['content'].strip()`. -/
def callModelExtract (response : ChatResponse) : Option String :=
  response.choices.head?.map (fun c => pyStrip c.message.content)

/-- Concrete environment used in closed instances: only `FOO` is set. -/
def exEnv : String → Option String :=
  fun n => if n = "FOO" then some "bar" else none

/-- Concrete descriptor with literal (non-placeholder) endpoint fields. -/
def cfgA : ModelCfg :=
  { name := "Model A", model := "model-a", base_url := "http://x",
    api_key := "key-a" }

/-- Concrete descriptor whose base_url is an environment placeholder. -/
def cfgB : ModelCfg :=
  { name := "Model B", model := "model-b", base_url := "$\x7bFOO\x7d",
    api_key := "key-b" }

/-- Concrete loop input: one successful model, one failing model. -/
def exInputs : List (ModelCfg × ℚ × Outcome) :=
  [(cfgA, 1, .success "hello" (some ⟨3, 5, 8⟩)),
   (cfgB, 2, .failure "boom")]

/-- Concrete results collection with one success and one failure. -/
def exResults : List ResultRec :=
  [successRec "Model A" "model-a" 1 "hello" (some ⟨3, 5, 8⟩),
   failRec "Model B" "model-b" 2 "boom"]

/-- Concrete chat response whose first choice has padded content. -/
def exResp : ChatResponse :=
  { choices := [{ message := { role := "assistant", content := " hi " } }] }

/- ### Helper lemmas about the per-model loop -/

lemma processModel_eq_failRec {env : String → Option String} {cfg : ModelCfg}
    {o : Outcome} {e : String} (t : ℚ) (h : attemptError env cfg o = some e) :
    processModel env cfg t o = failRec cfg.name cfg.model t e := by
  unfold attemptError at h
  unfold processModel
  rcases hbu : get_env_value env cfg.base_url with e1 | u1
  · rw [hbu] at h
    simp only [Option.some.injEq] at h
    rw [h]
  · rw [hbu] at h
    rcases hak : get_env_value env cfg.api_key with e2 | u2
    · rw [hak] at h
      simp only [Option.some.injEq] at h
      rw [h]
    · rw [hak] at h
      cases o with
      | failure msg =>
        simp only [Option.some.injEq] at h
        rw [h]
      | success raw usage => simp at h

lemma processModel_shape (env : String → Option String) (cfg : ModelCfg)
    (t : ℚ) (o : Outcome) :
    (∃ e, processModel env cfg t o = failRec cfg.name cfg.model t e) ∨
    (∃ raw usage,
      processModel env cfg t o = successRec cfg.name cfg.model t raw usage) := by
  unfold processModel
  rcases hbu : get_env_value env cfg.base_url with e1 | u1
  · exact Or.inl ⟨e1, rfl⟩
  · rcases hak : get_env_value env cfg.api_key with e2 | u2
    · exact Or.inl ⟨e2, rfl⟩
    · cases o with
      | failure msg => exact Or.inl ⟨msg, rfl⟩
      | success raw usage => exact Or.inr ⟨raw, usage, rfl⟩

lemma processModel_ids (env : String → Option String) (cfg : ModelCfg)
    (t : ℚ) (o : Outcome) :
    (processModel env cfg t o).model = cfg.name ∧
    (processModel env cfg t o).model_id = cfg.model := by
  rcases processModel_shape env cfg t o with ⟨e, he⟩ | ⟨raw, usage, hs⟩
  · rw [he]; exact ⟨rfl, rfl⟩
  · rw [hs]; exact ⟨rfl, rfl⟩

lemma runModels_length (env : String → Option String)
    (inputs : List (ModelCfg × ℚ × Outcome)) :
    (runModels env inputs).length = inputs.length := by
  simp [runModels]

lemma runModels_getElem? (env : String → Option String)
    (inputs : List (ModelCfg × ℚ × Outcome)) (j : Nat) :
    (runModels env inputs)[j]? =
      (inputs[j]?).map (fun x => processModel env x.1 x.2.1 x.2.2) := by
  simp [runModels]

/- ### C1 -/

/-- C1: for every non-empty list of well-formed model descriptors, the
per-model loop appends exactly one result record per configured model, so
the results collection has the same length as the model list, and the record
at each position carries the name and model id of the descriptor at the same
position. -/
theorem one_result_per_model (env : String → Option String)
    (inputs : List (ModelCfg × ℚ × Outcome)) (hne : inputs ≠ []) :
    (runModels env inputs).length = inputs.length ∧
    ∀ (i : Nat) cfg t o r, inputs[i]? = some (cfg, t, o) →
      (runModels env inputs)[i]? = some r →
      r.model = cfg.name ∧ r.model_id = cfg.model ∧
      r = processModel env cfg t o := by
  refine ⟨runModels_length env inputs, ?_⟩
  intro i cfg t o r hin hout
  rw [runModels_getElem? env inputs i, hin] at hout
  simp only [Option.map_some', Option.some.injEq] at hout
  subst hout
  exact ⟨(processModel_ids env cfg t o).1, (processModel_ids env cfg t o).2, rfl⟩

/-- Closed instance of C1 on a concrete two-model run. -/
theorem one_result_per_model_witness :
    exInputs ≠ [] ∧ (runModels exEnv exInputs).length = exInputs.length :=
  ⟨by decide, (one_result_per_model exEnv exInputs (by decide)).1⟩

/- ### C2 -/

/-- C2 counterexample: a successful invocation whose endpoint reports no
usage yields token fields equal to the integer `0`, not a sentinel
absent-marker. -/
theorem token_sentinel_counterexample :
    (processModel exEnv cfgA 1 (.success "ok" none)).success = true ∧
    (processModel exEnv cfgA 1 (.success "ok" none)).token_in = .int 0 ∧
    (processModel exEnv cfgA 1 (.success "ok" none)).token_out = .int 0 ∧
    (processModel exEnv cfgA 1 (.success "ok" none)).total_tokens = .int 0 ∧
    (processModel exEnv cfgA 1 (.success "ok" none)).token_in ≠ TokenVal.na := by
  refine ⟨rfl, rfl, rfl, rfl, ?_⟩
  decide

lemma processModel_eq_successRec {env : String → Option String}
    {cfg : ModelCfg} {raw : String} {usage : Option UsageMetrics} (t : ℚ)
    (h : attemptError env cfg (.success raw usage) = none) :
    processModel env cfg t (.success raw usage) =
      successRec cfg.name cfg.model t raw usage := by
  unfold attemptError at h
  unfold processModel
  rcases hbu : get_env_value env cfg.base_url with e1 | u1
  · rw [hbu] at h
    simp at h
  · rw [hbu] at h
    rcases hak : get_env_value env cfg.api_key with e2 | u2
    · rw [hak] at h
      simp at h
    · rfl

/-- C2 (amended): on success the token fields are always integers — the
endpoint-reported counts when usage is present (a successful iteration's
record is exactly `successRec` of its own outcome, and `successRec` with
reported usage copies `prompt_tokens` / `completion_tokens` /
`total_tokens` into the record), or `0` when the endpoint reports none, so
zero and not-reported are conflated — and the `N/A` sentinel marks exactly
the failure records. -/
theorem token_fields_contract :
    (∀ (env : String → Option String) inputs, ∀ r ∈ runModels env inputs,
      (r.success = true → ∃ i o t : Int,
        r.token_in = .int i ∧ r.token_out = .int o ∧ r.total_tokens = .int t) ∧
      (r.success = false →
        r.token_in = .na ∧ r.token_out = .na ∧ r.total_tokens = .na)) ∧
    (∀ (env : String → Option String) inputs (i : Nat) cfg (t : ℚ) raw usage,
      inputs[i]? = some (cfg, t, Outcome.success raw usage) →
      attemptError env cfg (Outcome.success raw usage) = none →
      (runModels env inputs)[i]? =
        some (successRec cfg.name cfg.model t raw usage)) ∧
    (∀ mn mi (t : ℚ) raw u,
      (successRec mn mi t raw (some u)).success = true ∧
      (successRec mn mi t raw (some u)).token_in = .int u.prompt_tokens ∧
      (successRec mn mi t raw (some u)).token_out = .int u.completion_tokens ∧
      (successRec mn mi t raw (some u)).total_tokens = .int u.total_tokens) ∧
    (∀ mn mi (t : ℚ) raw,
      (successRec mn mi t raw none).success = true ∧
      (successRec mn mi t raw none).token_in = .int 0 ∧
      (successRec mn mi t raw none).token_out = .int 0 ∧
      (successRec mn mi t raw none).total_tokens = .int 0) := by
  refine ⟨?_, ?_, ?_, ?_⟩
  · intro env inputs r hr
    simp only [runModels, List.mem_map] at hr
    obtain ⟨x, _, hx⟩ := hr
    rcases processModel_shape env x.1 x.2.1 x.2.2 with ⟨e, he⟩ | ⟨raw, usage, hs⟩
    · rw [← hx, he]
      refine ⟨fun h => absurd h (by simp [failRec]), fun _ => ⟨rfl, rfl, rfl⟩⟩
    · rw [← hx, hs]
      cases usage with
      | none =>
        exact ⟨fun _ => ⟨0, 0, 0, rfl, rfl, rfl⟩,
          fun h => absurd h (by simp [successRec])⟩
      | some u =>
        exact ⟨fun _ => ⟨u.prompt_tokens, u.completion_tokens, u.total_tokens,
          rfl, rfl, rfl⟩, fun h => absurd h (by simp [successRec])⟩
  · intro env inputs i cfg t raw usage hin hnone
    rw [runModels_getElem? env inputs i, hin]
    simp only [Option.map_some']
    rw [processModel_eq_successRec t hnone]
  · intro mn mi t raw u
    exact ⟨rfl, rfl, rfl, rfl⟩
  · intro mn mi t raw
    exact ⟨rfl, rfl, rfl, rfl⟩

/-- Closed instance of (amended) C2: the first concrete model succeeds with
reported usage `⟨3, 5, 8⟩` and its record carries exactly those counts; a
concrete failure record carries the sentinel. -/
theorem token_fields_contract_witness :
    (runModels exEnv exInputs)[0]? =
      some (successRec cfgA.name cfgA.model 1 "hello" (some ⟨3, 5, 8⟩)) ∧
    (successRec cfgA.name cfgA.model 1 "hello" (some ⟨3, 5, 8⟩)).token_in =
      TokenVal.int 3 ∧
    (successRec cfgA.name cfgA.model 1 "hello" (some ⟨3, 5, 8⟩)).token_out =
      TokenVal.int 5 ∧
    (successRec cfgA.name cfgA.model 1 "hello"
      (some ⟨3, 5, 8⟩)).total_tokens = TokenVal.int 8 ∧
    (failRec "Model B" "model-b" 2 "boom").token_in = TokenVal.na :=
  ⟨token_fields_contract.2.1 exEnv exInputs 0 cfgA 1 "hello" (some ⟨3, 5, 8⟩)
      (by decide) (by decide),
   (token_fields_contract.2.2.1 cfgA.name cfgA.model 1 "hello" ⟨3, 5, 8⟩).2.1,
   (token_fields_contract.2.2.1 cfgA.name cfgA.model 1 "hello"
     ⟨3, 5, 8⟩).2.2.1,
   (token_fields_contract.2.2.1 cfgA.name cfgA.model 1 "hello"
     ⟨3, 5, 8⟩).2.2.2,
   (((token_fields_contract).1 exEnv [(cfgB, 2, .failure "boom")]
     (failRec "Model B" "model-b" 2 "boom") (by decide)).2 (by decide)).1⟩

/- ### C4 -/

/-- C4: whenever the guarded body of one model's turn raises — env
resolution failure, invocation failure, or any other exception, with message
`e` — the loop records a failure result for that model with `error` set to
`e`, keeps one result per model (it never aborts), and leaves every other
model's record exactly what its own descriptor and outcome dictate. -/
theorem failure_recorded_loop_continues (env : String → Option String)
    (inputs : List (ModelCfg × ℚ × Outcome)) (i : Nat) (cfg : ModelCfg)
    (t : ℚ) (o : Outcome) (e : String)
    (hin : inputs[i]? = some (cfg, t, o))
    (he : attemptError env cfg o = some e) :
    (runModels env inputs).length = inputs.length ∧
    (runModels env inputs)[i]? = some (failRec cfg.name cfg.model t e) ∧
    (failRec cfg.name cfg.model t e).success = false ∧
    (failRec cfg.name cfg.model t e).error = some e ∧
    ∀ (j : Nat), j ≠ i → (runModels env inputs)[j]? =
      (inputs[j]?).map (fun x => processModel env x.1 x.2.1 x.2.2) := by
  refine ⟨runModels_length env inputs, ?_, rfl, rfl, ?_⟩
  · rw [runModels_getElem? env inputs i, hin]
    simp only [Option.map_some']
    rw [processModel_eq_failRec t he]
  · intro j _
    exact runModels_getElem? env inputs j

/-- Closed instance of C4: the second model of the concrete run fails with
message `boom` and is recorded as a failure while the run continues. -/
theorem failure_recorded_loop_continues_witness :
    (runModels exEnv exInputs).length = exInputs.length ∧
    (runModels exEnv exInputs)[1]? =
      some (failRec cfgB.name cfgB.model 2 "boom") :=
  ⟨(failure_recorded_loop_continues exEnv exInputs 1 cfgB 2 (.failure "boom")
      "boom" (by decide) (by decide)).1,
   (failure_recorded_loop_continues exEnv exInputs 1 cfgB 2 (.failure "boom")
      "boom" (by decide) (by decide)).2.1⟩

/- ### C5 -/

/-- C5: `get_env_value` returns the environment value of `NAME` for a string
of the placeholder shape (error if that variable is unset or empty), and
returns any other string unchanged; in particular the three concrete
examples behave as specified. -/
theorem resolve_contract (env : String → Option String) (s : String) :
    ("$\x7b".data.isPrefixOf s.data = true → "\x7d".data.isSuffixOf s.data = true →
      get_env_value env s =
        match env (placeholderName s) with
        | none => .error ("Environment variable " ++ placeholderName s ++
            " is not set")
        | some v =>
          if v = "" then .error ("Environment variable " ++ placeholderName s ++
            " is not set")
          else .ok v) ∧
    (("$\x7b".data.isPrefixOf s.data && "\x7d".data.isSuffixOf s.data) = false →
      get_env_value env s = .ok s) ∧
    get_env_value exEnv "$\x7bFOO\x7d" = .ok "bar" ∧
    get_env_value (fun _ => none) "$\x7bMISSING\x7d" =
      .error "Environment variable MISSING is not set" ∧
    get_env_value env "literal" = .ok "literal" := by
  refine ⟨?_, ?_, by decide, by decide, ?_⟩
  · intro h1 h2
    simp only [get_env_value, placeholderName, h1, h2, Bool.and_self, if_true]
  · intro h
    simp only [get_env_value, h, Bool.false_eq_true, if_false]
  · have hc : ("$\x7b".data.isPrefixOf "literal".data &&
        "\x7d".data.isSuffixOf "literal".data) = false := by decide
    simp only [get_env_value, hc, Bool.false_eq_true, if_false]

/-- Closed instance of C5: the placeholder branch applied to the `FOO`
example. -/
theorem resolve_contract_witness :
    get_env_value exEnv "$\x7bFOO\x7d" =
      match exEnv (placeholderName "$\x7bFOO\x7d") with
      | none => .error ("Environment variable " ++
          placeholderName "$\x7bFOO\x7d" ++ " is not set")
      | some v =>
        if v = "" then .error ("Environment variable " ++
          placeholderName "$\x7bFOO\x7d" ++ " is not set")
        else .ok v :=
  (resolve_contract exEnv "$\x7bFOO\x7d").1 (by decide) (by decide)

/- ### C6 -/

/-- C6: in every record the loop produces, `success = true` holds exactly
when the response field is present and the error field is absent, and
`success = false` holds exactly when the error field is present and the
response field is absent. -/
theorem success_iff_response (env : String → Option String)
    (inputs : List (ModelCfg × ℚ × Outcome)) :
    ∀ r ∈ runModels env inputs,
      (r.success = true ↔ ((∃ s, r.response = some s) ∧ r.error = none)) ∧
      (r.success = false ↔ ((∃ e, r.error = some e) ∧ r.response = none)) := by
  intro r hr
  simp only [runModels, List.mem_map] at hr
  obtain ⟨x, _, hx⟩ := hr
  rcases processModel_shape env x.1 x.2.1 x.2.2 with ⟨e, he⟩ | ⟨raw, usage, hs⟩
  · rw [← hx, he]
    constructor
    · constructor
      · intro h; exact absurd h (by simp [failRec])
      · rintro ⟨⟨s, hs⟩, -⟩; exact absurd hs (by simp [failRec])
    · exact ⟨fun _ => ⟨⟨e, rfl⟩, rfl⟩, fun _ => rfl⟩
  · rw [← hx, hs]
    constructor
    · exact ⟨fun _ => ⟨⟨raw, rfl⟩, rfl⟩, fun _ => rfl⟩
    · constructor
      · intro h; exact absurd h (by simp [successRec])
      · rintro ⟨⟨e, he⟩, -⟩; exact absurd he (by simp [successRec])

/-- Closed instance of C6 on the concrete successful record. -/
theorem success_iff_response_witness :
    (processModel exEnv cfgA 1 (.success "hello" (some ⟨3, 5, 8⟩))).success =
      true ↔
      ((∃ s, (processModel exEnv cfgA 1
          (.success "hello" (some ⟨3, 5, 8⟩))).response = some s) ∧
        (processModel exEnv cfgA 1
          (.success "hello" (some ⟨3, 5, 8⟩))).error = none) :=
  (success_iff_response exEnv exInputs
    (processModel exEnv cfgA 1 (.success "hello" (some ⟨3, 5, 8⟩)))
    (by decide)).1

/- ### C8 -/

/-- C8 counterexample: `OpenAICompatibleTool._run` returns the first
choice's content exactly as received — for a response whose content is
padded with whitespace, the returned text is not the trimmed text. -/
theorem trim_counterexample :
    toolExtract exResp = some " hi " ∧
    exResp.choices.head?.map (fun c => pyStrip c.message.content) =
      some "hi" ∧
    toolExtract exResp ≠
      exResp.choices.head?.map (fun c => pyStrip c.message.content) := by
  refine ⟨rfl, by decide, by decide⟩

/-- C8 (amended): the tool builds the fixed system message followed by one
user message and sends temperature 0.7, returning the first choice's
content as-is (untrimmed); the dual-prompt variant builds only the user
message, sends no temperature field, and trims the content it extracts. -/
theorem invoker_request_contract (model_name prompt : String)
    (resp : ChatResponse) (c : ChatChoice)
    (h : resp.choices.head? = some c) :
    (toolRequest model_name prompt).messages =
      [{ role := "system", content := "You are a helpful assistant." },
       { role := "user", content := prompt }] ∧
    (toolRequest model_name prompt).temperature = some (7 / 10) ∧
    toolExtract resp = some c.message.content ∧
    (callModelRequest model_name prompt).messages =
      [{ role := "user", content := prompt }] ∧
    (callModelRequest model_name prompt).temperature = none ∧
    callModelExtract resp = some (pyStrip c.message.content) := by
  refine ⟨rfl, rfl, ?_, rfl, rfl, ?_⟩
  · simp [toolExtract, h]
  · simp [callModelExtract, h]

/-- Closed instance of (amended) C8 on the concrete padded response. -/
theorem invoker_request_contract_witness :
    toolExtract exResp =
      some ({ message := { role := "assistant", content := " hi " } } :
        ChatChoice).message.content :=
  (invoker_request_contract "m" "p" exResp
    { message := { role := "assistant", content := " hi " } }
    (by decide)).2.2.1

/- ### C9 -/

/-- C9: when the configuration cannot be loaded, `main` prints the error and
returns at once — no model is invoked, no result record is created, and no
report is produced. -/
theorem config_error_stops_run (env : String → Option String) (e : String) :
    (mainRun env (.error e)).invoked = [] ∧
    (mainRun env (.error e)).results = [] ∧
    (mainRun env (.error e)).report_printed = false :=
  ⟨rfl, rfl, rfl⟩

/- ### C10 -/

/-- Well-formed raw loops refine the typed loop: when every key is present
the raw loop returns exactly the typed loop's records. -/
lemma runModelsRaw_toRaw (env : String → Option String) :
    ∀ inputs : List (ModelCfg × ℚ × Outcome),
      runModelsRaw env (inputs.map (fun x => (x.1.toRaw, x.2))) =
        .ok (runModels env inputs)
  | [] => rfl
  | x :: rest => by
    show Except.map _
      (runModelsRaw env (rest.map (fun x => (x.1.toRaw, x.2)))) = _
    rw [runModelsRaw_toRaw env rest]
    rfl

/-- C10: a descriptor missing the `name` (or `model`) key makes the loop
raise the `KeyError` outside the per-model `try` boundary: no failure record
is produced, the whole run aborts with that error, and the models after the
bad descriptor are never examined. -/
theorem missing_key_aborts (env : String → Option String)
    (pre rest rest' : List (RawCfg × ℚ × Outcome))
    (bad : RawCfg × ℚ × Outcome)
    (hpre : ∀ x ∈ pre, x.1.name.isSome ∧ x.1.model.isSome) :
    (bad.1.name = none →
      runModelsRaw env (pre ++ bad :: rest) = .error "\x27name\x27") ∧
    (∀ n, bad.1.name = some n → bad.1.model = none →
      runModelsRaw env (pre ++ bad :: rest) = .error "\x27model\x27") ∧
    ((bad.1.name = none ∨ bad.1.model = none) →
      (∀ rs, runModelsRaw env (pre ++ bad :: rest) ≠ .ok rs) ∧
      runModelsRaw env (pre ++ bad :: rest) =
        runModelsRaw env (pre ++ bad :: rest')) := by
  induction pre with
  | nil =>
    simp only [List.nil_append]
    refine ⟨?_, ?_, ?_⟩
    · intro h
      simp only [runModelsRaw, h]
    · intro n hn hm
      simp only [runModelsRaw, hn, hm]
    · intro h
      rcases h with h | h
      · simp only [runModelsRaw, h]
        rcases hm : bad.1.name with _ | n
        · exact ⟨fun rs => by simp, by trivial⟩
        · exact absurd (hm ▸ h) (by simp)
      · rcases hn : bad.1.name with _ | n
        · simp only [runModelsRaw, hn]
          exact ⟨fun rs => by simp, by trivial⟩
        · simp only [runModelsRaw, hn, h]
          exact ⟨fun rs => by simp, by trivial⟩
  | cons x pre ih =>
    have hx := hpre x (List.mem_cons_self x pre)
    obtain ⟨n, hn⟩ := Option.isSome_iff_exists.mp hx.1
    obtain ⟨m, hm⟩ := Option.isSome_iff_exists.mp hx.2
    have ih' := ih (fun y hy => hpre y (List.mem_cons_of_mem x hy))
    simp only [List.cons_append, runModelsRaw, hn, hm, List.append_eq]
    refine ⟨?_, ?_, ?_⟩
    · intro h
      rw [ih'.1 h]
      rfl
    · intro nb hnb hmb
      rw [ih'.2.1 nb hnb hmb]
      rfl
    · intro h
      have h3 := ih'.2.2 h
      refine ⟨?_, by rw [h3.2]⟩
      intro rs hok
      rcases hres : runModelsRaw env (pre ++ bad :: rest) with e | rs'
      · rw [hres] at hok
        simp [Except.map] at hok
      · exact h3.1 rs' hres

/-- Closed instance of C10: a nameless second descriptor aborts the raw
loop with the `name` key error. -/
theorem missing_key_aborts_witness :
    runModelsRaw exEnv
      [((cfgA.toRaw : RawCfg), (1 : ℚ), Outcome.success "hello" none),
       ((⟨none, some "m", some "u", some "k"⟩ : RawCfg), (2 : ℚ),
         Outcome.failure "never reached")] = .error "\x27name\x27" :=
  (missing_key_aborts exEnv
    [((cfgA.toRaw : RawCfg), (1 : ℚ), Outcome.success "hello" none)] [] []
    ((⟨none, some "m", some "u", some "k"⟩ : RawCfg), (2 : ℚ),
      Outcome.failure "never reached")
    (by decide)).1 (by decide)

/- ### Sorting lemmas -/

lemma keyLe_refl (a : ResultRec) : keyLe a a := Or.inr ⟨rfl, le_rfl⟩

lemma keyLe_of_resKey_eq {a b : ResultRec} (h : resKey a = resKey b) :
    keyLe a b := by
  unfold resKey at h
  obtain ⟨h1, h2⟩ := Prod.mk.injEq .. ▸ h
  exact Or.inr ⟨h1, le_of_eq h2⟩

lemma filter_orderedInsert (k : Bool × ℚ) (x : ResultRec) :
    ∀ l : List ResultRec,
      (l.orderedInsert keyLe x).filter (fun r => decide (resKey r = k)) =
        if resKey x = k then
          x :: l.filter (fun r => decide (resKey r = k))
        else l.filter (fun r => decide (resKey r = k))
  | [] => by
    simp only [List.orderedInsert, List.filter]
    by_cases h : resKey x = k
    · simp [h]
    · simp [h]
  | y :: l => by
    simp only [List.orderedInsert]
    by_cases hxy : keyLe x y
    · rw [if_pos hxy]
      by_cases hk : resKey x = k
      · rw [if_pos hk]
        simp [List.filter_cons, hk]
      · rw [if_neg hk]
        simp [List.filter_cons, hk]
    · rw [if_neg hxy]
      by_cases hyk : resKey y = k
      · by_cases hk : resKey x = k
        · exact absurd (keyLe_of_resKey_eq (hk.trans hyk.symm)) hxy
        · rw [if_neg hk]
          simp [List.filter_cons, hyk, hk, filter_orderedInsert k x l]
      · simp [List.filter_cons, hyk, filter_orderedInsert k x l]

lemma filter_insertionSort (k : Bool × ℚ) :
    ∀ l : List ResultRec,
      (l.insertionSort keyLe).filter (fun r => decide (resKey r = k)) =
        l.filter (fun r => decide (resKey r = k))
  | [] => rfl
  | x :: l => by
    simp only [List.insertionSort]
    rw [filter_orderedInsert k x (l.insertionSort keyLe),
      filter_insertionSort k l, List.filter_cons]
    by_cases hk : resKey x = k
    · simp [hk]
    · simp [hk]

/- ### C3 -/

/-- C3: the report printer sorts the results by the key
`(not success, elapsed)` ascending — the output is a permutation of the
input that is pairwise ordered under that key (hence every adjacent pair is
ordered, every success precedes every failure, and within a group elapsed
times ascend) — and the sort is stable: records with any given key keep
their original relative order. -/
theorem sort_contract (rs : List ResultRec) :
    List.Pairwise keyLe (sortResults rs) ∧
    (sortResults rs).Perm rs ∧
    (∀ k : Bool × ℚ, (sortResults rs).filter (fun r => decide (resKey r = k)) =
      rs.filter (fun r => decide (resKey r = k))) ∧
    List.Chain' keyLe (sortResults rs) ∧
    (∀ (i j : Nat) (hi : i < (sortResults rs).length)
      (hj : j < (sortResults rs).length), i < j →
      keyLe ((sortResults rs).get ⟨i, hi⟩) ((sortResults rs).get ⟨j, hj⟩) ∧
      (((sortResults rs).get ⟨j, hj⟩).success = true →
        ((sortResults rs).get ⟨i, hi⟩).success = true) ∧
      (((sortResults rs).get ⟨i, hi⟩).success =
          ((sortResults rs).get ⟨j, hj⟩).success →
        ((sortResults rs).get ⟨i, hi⟩).execution_time_sec ≤
          ((sortResults rs).get ⟨j, hj⟩).execution_time_sec)) := by
  have hpw : List.Pairwise keyLe (sortResults rs) :=
    List.sorted_insertionSort keyLe rs
  refine ⟨hpw, List.perm_insertionSort keyLe rs,
    fun k => filter_insertionSort k rs, hpw.chain', ?_⟩
  intro i j hi hj hij
  simp only [List.get_eq_getElem]
  have hrel := List.pairwise_iff_getElem.mp hpw i j hi hj hij
  refine ⟨hrel, ?_, ?_⟩
  · intro hj'
    rcases hrel with ⟨h1, h2⟩ | ⟨h1, h2⟩
    · rw [hj'] at h2
      simp at h2
    · rw [hj'] at h1
      simpa using h1
  · intro hsame
    rcases hrel with ⟨h1, h2⟩ | ⟨h1, h2⟩
    · rw [hsame] at h1
      rw [h1] at h2
      simp at h2
    · exact h2

/-- Closed instance of C3: the concrete two-record collection sorts into a
pairwise-ordered permutation of itself. -/
theorem sort_contract_witness :
    List.Pairwise keyLe (sortResults exResults) ∧
    (sortResults exResults).Perm exResults :=
  ⟨(sort_contract exResults).1, (sort_contract exResults).2.1⟩

/- ### C7 -/

lemma keyLe_time_of_success {a b : ResultRec} (hab : keyLe a b)
    (hb : b.success = true) :
    a.execution_time_sec ≤ b.execution_time_sec := by
  rcases hab with ⟨h1, h2⟩ | ⟨h1, h2⟩
  · rw [hb] at h2
    simp at h2
  · exact h2

lemma pairwise_head_keyLe {l : List ResultRec} (hp : List.Pairwise keyLe l)
    (hne : l ≠ []) : ∀ y ∈ l, keyLe (l.head hne) y := by
  cases l with
  | nil => simp at hne
  | cons x xs =>
    intro y hy
    rcases List.mem_cons.mp hy with rfl | hy
    · exact keyLe_refl _
    · exact (List.pairwise_cons.mp hp).1 y hy

lemma pairwise_keyLe_getLast {l : List ResultRec} (hp : List.Pairwise keyLe l)
    (hne : l ≠ []) : ∀ y ∈ l, keyLe y (l.getLast hne) := by
  induction l with
  | nil => simp at hne
  | cons x xs ih =>
    intro y hy
    cases xs with
    | nil =>
      rcases List.mem_cons.mp hy with rfl | hy
      · exact keyLe_refl _
      · simp at hy
    | cons b bs =>
      rw [List.getLast_cons (by simp)]
      rcases List.mem_cons.mp hy with rfl | hy
      · exact (List.pairwise_cons.mp hp).1 _ (List.getLast_mem (by simp))
      · exact ih (List.Pairwise.of_cons hp) (by simp) y hy

/-- C7: whenever at least one success exists, the summary of the sorted
results designates as fastest the first successful entry in sorted order and
as slowest the last; both are successful records drawn from the run, the
fastest is no slower than any success and the slowest no faster, and the
average is the arithmetic mean of elapsed time over exactly the successful
results, alongside total / success / failure counts. -/
theorem summary_contract (rs : List ResultRec)
    (h : ∃ r ∈ rs, r.success = true) :
    ∃ f l,
      (summarize (sortResults rs)).fastest = some f ∧
      (summarize (sortResults rs)).slowest = some l ∧
      f.success = true ∧ l.success = true ∧ f ∈ rs ∧ l ∈ rs ∧
      f.execution_time_sec ≤ l.execution_time_sec ∧
      (∀ r ∈ rs, r.success = true →
        f.execution_time_sec ≤ r.execution_time_sec ∧
        r.execution_time_sec ≤ l.execution_time_sec) ∧
      (summarize (sortResults rs)).avg_time =
        some (((rs.filter (fun r => r.success)).map
          (fun r => r.execution_time_sec)).sum /
          ((rs.filter (fun r => r.success)).length : ℚ)) ∧
      (summarize (sortResults rs)).total = rs.length ∧
      (summarize (sortResults rs)).successful_count =
        (rs.filter (fun r => r.success)).length ∧
      (summarize (sortResults rs)).failed_count =
        (rs.filter (fun r => !r.success)).length := by
  have hperm : (sortResults rs).Perm rs := List.perm_insertionSort keyLe rs
  have hpw : List.Pairwise keyLe (sortResults rs) :=
    List.sorted_insertionSort keyLe rs
  have hpermF : ((sortResults rs).filter (fun r => r.success)).Perm
      (rs.filter (fun r => r.success)) := hperm.filter _
  obtain ⟨r0, hr0, hr0s⟩ := h
  have hr0f : r0 ∈ rs.filter (fun r => r.success) :=
    List.mem_filter.mpr ⟨hr0, by simp [hr0s]⟩
  have hFne : (sortResults rs).filter (fun r => r.success) ≠ [] :=
    List.ne_nil_of_mem (hpermF.mem_iff.mpr hr0f)
  have hFpw : List.Pairwise keyLe ((sortResults rs).filter (fun r => r.success)) :=
    hpw.filter _
  refine ⟨((sortResults rs).filter (fun r => r.success)).head hFne,
    ((sortResults rs).filter (fun r => r.success)).getLast hFne,
    ?_, ?_, ?_, ?_, ?_, ?_, ?_, ?_, ?_, ?_, ?_, ?_⟩
  · simp only [summarize]
    exact List.head?_eq_head hFne
  · simp only [summarize]
    exact List.getLast?_eq_getLast _ hFne
  · simpa using (List.mem_filter.mp (List.head_mem hFne)).2
  · simpa using (List.mem_filter.mp (List.getLast_mem hFne)).2
  · exact hperm.subset (List.mem_filter.mp (List.head_mem hFne)).1
  · exact hperm.subset (List.mem_filter.mp (List.getLast_mem hFne)).1
  · exact keyLe_time_of_success
      (pairwise_keyLe_getLast hFpw hFne _ (List.head_mem hFne))
      (by simpa using (List.mem_filter.mp (List.getLast_mem hFne)).2)
  · intro r hr hrs
    have hrF : r ∈ (sortResults rs).filter (fun r => r.success) :=
      hpermF.mem_iff.mpr (List.mem_filter.mpr ⟨hr, by simp [hrs]⟩)
    constructor
    · exact keyLe_time_of_success (pairwise_head_keyLe hFpw hFne r hrF) hrs
    · exact keyLe_time_of_success (pairwise_keyLe_getLast hFpw hFne r hrF)
        (by simpa using (List.mem_filter.mp (List.getLast_mem hFne)).2)
  · have hlen : ((sortResults rs).filter (fun r => r.success)).length =
      (rs.filter (fun r => r.success)).length := hpermF.length_eq
    have hlen0 : (rs.filter (fun r => r.success)).length ≠ 0 :=
      fun h0 => hFne (by
        have := hlen.trans h0
        exact List.eq_nil_of_length_eq_zero this)
    have hsum : (((sortResults rs).filter (fun r => r.success)).map
        (fun r => r.execution_time_sec)).sum =
        ((rs.filter (fun r => r.success)).map
          (fun r => r.execution_time_sec)).sum :=
      (hpermF.map _).sum_eq
    simp only [summarize]
    rw [if_neg (by rw [hlen]; exact hlen0), hsum, hlen]
  · simp only [summarize]
    exact hperm.length_eq
  · simp only [summarize]
    exact hpermF.length_eq
  · simp only [summarize]
    exact (hperm.filter _).length_eq

/-- Closed instance of C7: the concrete mixed run has a fastest and slowest
successful entry with ordered elapsed times. -/
theorem summary_contract_witness :
    (∃ r ∈ exResults, r.success = true) ∧
    ∃ f l, (summarize (sortResults exResults)).fastest = some f ∧
      (summarize (sortResults exResults)).slowest = some l ∧
      f.execution_time_sec ≤ l.execution_time_sec := by
  obtain ⟨f, l, h1, h2, _, _, _, _, h7, -⟩ :=
    summary_contract exResults (by decide)
  exact ⟨by decide, f, l, h1, h2, h7⟩

end Tokens
